import Mathlib

/-!
Shallow embedding of SubHunter.py (a crt.sh certificate-transparency
subdomain enumerator) and proofs about its pipeline.

The embedding models:
  * the Python string primitives the script relies on
    (str.splitlines, str.strip, str.replace, the in operator,
    str.split, str.endswith),
  * the retry policy built by requests_retry_session,
  * fetch_subdomains with the HTTP transport abstracted as a function
    from query strings to either a network error or a response
    (status code plus parsed JSON body),
  * process_subdomains (classification into concrete/wildcard sets,
    one-level recursive wildcard expansion, wildcard merge policy,
    extension filter),
  * save_to_file (output serialisation as an abstract file content),
  * the argument record and the call the entry point makes.

Python sets are modelled as Finset String; set-iteration order (which
Python leaves unspecified) is canonicalised to lexicographically sorted
order, which does not affect any set-valued result.
-/

/-- Characters Python str.splitlines treats as line boundaries
(newline, carriage return, vertical tab, form feed, the FS/GS/RS
separators, NEL, LINE SEPARATOR, PARAGRAPH SEPARATOR); a CR LF pair
counts as a single boundary, handled in the splitter itself. -/
def pyIsLineBreak (c : Char) : Bool :=
  c = '\n' || c = '\r' || c.toNat = 11 || c.toNat = 12 ||
  c.toNat = 28 || c.toNat = 29 || c.toNat = 30 || c.toNat = 133 ||
  c.toNat = 8232 || c.toNat = 8233

/-- Worker for pySplitlines: walks the character list, accumulating the
current line in reverse. A trailing line break yields no trailing empty
string, exactly as in Python. -/
def splitlinesAux : List Char → List Char → List String
  | [], acc => if acc.isEmpty then [] else [String.mk acc.reverse]
  | '\r' :: '\n' :: rest, acc => String.mk acc.reverse :: splitlinesAux rest []
  | c :: rest, acc =>
    if pyIsLineBreak c then String.mk acc.reverse :: splitlinesAux rest []
    else splitlinesAux rest (c :: acc)

/-- Python str.splitlines. -/
def pySplitlines (s : String) : List String :=
  splitlinesAux s.data []

/-- Whitespace characters for Python str.strip with no argument
(the str.isspace class: ASCII whitespace, the FS/GS/RS/US separators,
NEL, NBSP, and the Unicode space separators). -/
def pyIsSpace (c : Char) : Bool :=
  c = ' ' || c = '\t' || c = '\n' || c = '\r' || c.toNat = 11 || c.toNat = 12 ||
  c.toNat = 28 || c.toNat = 29 || c.toNat = 30 || c.toNat = 31 ||
  c.toNat = 133 || c.toNat = 160 || c.toNat = 5760 ||
  (8192 ≤ c.toNat && c.toNat ≤ 8202) || c.toNat = 8232 || c.toNat = 8233 ||
  c.toNat = 8239 || c.toNat = 8287 || c.toNat = 12288

/-- Python str.strip with no argument: drop leading and trailing
whitespace. -/
def pyStrip (s : String) : String :=
  String.mk (((s.data.dropWhile pyIsSpace).reverse.dropWhile pyIsSpace).reverse)

/-- The test the script writes as `'*' in subdomain`: for a single
character the Python substring test is character membership. -/
def hasStar (s : String) : Bool :=
  s.data.contains '*'

/-- The expression `wildcard_subdomain.replace('*', '%25')`: every
occurrence of the one-character substring `*` is replaced by `%25`. -/
def encodeWildcard (s : String) : String :=
  String.mk ((s.data.map (fun c => if c = '*' then ['%', '2', '5'] else [c])).flatten)

/-- The urllib3 Retry object as configured by the script: bounded
total/read/connect retry counts, a backoff factor, and the list of
response status codes that force a retry. -/
structure Retry where
  total : Nat
  read : Nat
  connect : Nat
  backoff_factor : ℚ
  status_forcelist : List Nat
deriving DecidableEq

/-- requests_retry_session(retries, backoff_factor, status_forcelist):
builds a session whose HTTP adapter retries with the given policy
(Retry(total=retries, read=retries, connect=retries, ...)). The
session itself is transport plumbing; the policy object is what the
claims speak about. -/
def requests_retry_session (retries : Nat) (backoff_factor : ℚ)
    (status_forcelist : List Nat) : Retry :=
  { total := retries
    read := retries
    connect := retries
    backoff_factor := backoff_factor
    status_forcelist := status_forcelist }

/-- The session fetch_subdomains actually constructs: the script calls
requests_retry_session() with its Python default arguments
retries=3, backoff_factor=0.3, status_forcelist=(500, 502, 504). -/
def default_retry_session : Retry :=
  requests_retry_session 3 (3 / 10) [500, 502, 504]

/-- Whether the policy retries after a response with the given status
code: urllib3 retries on a status exactly when it is listed in
status_forcelist (the Python test `status_code in status_forcelist`). -/
def Retry.retriesOnStatus (r : Retry) (s : Nat) : Bool :=
  r.status_forcelist.contains s

/-- urllib3 Retry.get_backoff_time after a number of consecutive
errors: zero before the second error, afterwards
backoff_factor * 2 ^ (consecutive - 1), capped at BACKOFF_MAX = 120
seconds. -/
def Retry.getBackoffTime (r : Retry) (consecutive : Nat) : ℚ :=
  if consecutive ≤ 1 then 0
  else min (r.backoff_factor * 2 ^ (consecutive - 1)) 120

/-- One JSON record returned by crt.sh: an object that may or may not
carry the name_value field (the only field the script reads, via
entry.get with default ''). -/
structure Entry where
  name_value : Option String
deriving DecidableEq

/-- Failure of the HTTP transport before a response is obtained:
connection errors, timeouts, and exhaustion of the bounded retries.
requests surfaces all of these as a requests.RequestException, which
fetch_subdomains catches. -/
inductive NetError
  | connectionFailure
  | timeoutExpired
  | retriesExhausted
deriving DecidableEq

/-- An HTTP response as the script observes it: a status code and the
parsed JSON body (a list of records). -/
structure HttpResponse where
  status : Nat
  body : List Entry
deriving DecidableEq

/-- The abstracted transport: the outcome of session.get on a query
string. The User-Agent header, the timeout, the retry/backoff schedule
and the post-fetch rate-limit sleep are effects inside this function;
the pipeline only observes its outcome. -/
abbrev Net := String → Except NetError HttpResponse

/-- fetch_subdomains(domain, ...): issues the GET, calls
response.raise_for_status() — which raises exactly for status codes in
[400, 600) — and returns the parsed JSON body; every
requests.RequestException is caught and turned into the empty list. -/
def fetch_subdomains (net : Net) (domain : String) : List Entry :=
  match net domain with
  | Except.error _ => []
  | Except.ok resp =>
      if 400 ≤ resp.status ∧ resp.status < 600 then [] else resp.body

/-- The two accumulating Python sets of process_subdomains:
subdomains (concrete) and wildcard_subdomains. -/
structure SetsState where
  subs : Finset String
  wilds : Finset String
deriving DecidableEq

/-- add_subdomain(subdomain): put the string in wildcard_subdomains
when it contains `*`, in subdomains otherwise. -/
def add_subdomain (st : SetsState) (s : String) : SetsState :=
  if hasStar s then { st with wilds := insert s st.wilds }
  else { st with subs := insert s st.subs }

/-- The per-entry loop body: split the entry's name_value (default '')
into lines and add each stripped line. -/
def processEntry (st : SetsState) (e : Entry) : SetsState :=
  (pySplitlines (e.name_value.getD "")).foldl
    (fun st line => add_subdomain st (pyStrip line)) st

/-- The loop over all fetched entries. -/
def processEntries (st : SetsState) (es : List Entry) : SetsState :=
  es.foldl processEntry st

/-- One iteration of the recursive loop body after the query has been
built: fetch, skip when the result is empty (the `continue`), process
the entries otherwise. -/
def fetchAndProcess (net : Net) (st : SetsState) (q : String) : SetsState :=
  let jr := fetch_subdomains net q
  if jr = [] then st else processEntries st jr

/-- The recursive loop, `for wildcard_subdomain in list(wildcard_subdomains)`:
the iteration runs over a snapshot of wildcard_subdomains taken before
the loop (the Python list(...) copy), so additions made inside the loop
are not iterated. Python's set order is unspecified; it is canonicalised
here as lexicographically sorted, which does not change the resulting
sets. -/
def recursiveExpansion (net : Net) (st : SetsState) : SetsState :=
  (st.wilds.sort (· ≤ ·)).foldl
    (fun acc w => fetchAndProcess net acc (encodeWildcard w)) st

/-- Merge of the two sets under the two flags, exactly in source order:
the union into subdomains when wildcard is set (line 141), then the
difference_update when exclude_wildcards is set (line 145). -/
def mergeWildcardPolicy (subs wilds : Finset String)
    (wildcard exclude_wildcards : Bool) : Finset String :=
  let merged := if wildcard then subs ∪ wilds else subs
  if exclude_wildcards then merged \ wilds else merged

/-- Python str.endswith with a plain string argument: the argument is
a suffix of the receiver. -/
def pyEndsWith (s tail : String) : Bool :=
  tail.data.isSuffixOf s.data

/-- The per-subdomain extension test: some entry of
extensions.split(',') is, stripped and prefixed with a dot, a suffix of
the subdomain. -/
def matchesExtension (extensions : String) (s : String) : Bool :=
  (extensions.splitOn ",").any (fun ext => pyEndsWith s ("." ++ pyStrip ext))

/-- The extension-filter step guarded by `if extensions:` — a missing
value or the empty string is falsy and leaves the set unchanged. -/
def extensionFilterStep (extensions : Option String)
    (subs : Finset String) : Finset String :=
  match extensions with
  | none => subs
  | some e =>
      if e = "" then subs
      else subs.filter (fun s => matchesExtension e s = true)

/-- process_subdomains(domain, recursive, wildcard, exclude_wildcards,
..., extensions): the whole pipeline. The verbose/user_agent/timeout/
rate_limit parameters only configure logging and the transport and are
absorbed into net. -/
def process_subdomains (net : Net) (domain : String)
    (recursive wildcard exclude_wildcards : Bool)
    (extensions : Option String) : Finset String :=
  let jsondata := fetch_subdomains net domain
  if jsondata = [] then (∅ : Finset String)
  else
    let st0 := processEntries ⟨∅, ∅⟩ jsondata
    let st1 := if recursive then recursiveExpansion net st0 else st0
    extensionFilterStep extensions
      (mergeWildcardPolicy st1.subs st1.wilds wildcard exclude_wildcards)

/-- The wildcard set right after the root fetch has been processed:
the snapshot the recursive loop iterates over. -/
def rootWildcards (net : Net) (domain : String) : Finset String :=
  (processEntries ⟨∅, ∅⟩ (fetch_subdomains net domain)).wilds

/-- The collection phase of process_subdomains (everything before the
merge), exposed for stating invariants. -/
def collectState (net : Net) (domain : String) (recursive : Bool) : SetsState :=
  let st0 := processEntries ⟨∅, ∅⟩ (fetch_subdomains net domain)
  if recursive then recursiveExpansion net st0 else st0

/-- The recursive loop instrumented with the list of queries it issues,
in iteration order. -/
def recursiveExpansionInstr (net : Net) (st : SetsState) :
    SetsState × List String :=
  (st.wilds.sort (· ≤ ·)).foldl
    (fun p w =>
      (fetchAndProcess net p.1 (encodeWildcard w), p.2 ++ [encodeWildcard w]))
    (st, [])

/-- All queries process_subdomains sends to the data source, in order:
the root domain, then — when recursion is on and the root fetch
returned data — one query per snapshot wildcard. -/
def queriesIssued (net : Net) (domain : String) (recursive : Bool) :
    List String :=
  domain ::
    (let jsondata := fetch_subdomains net domain
     if jsondata = [] then []
     else if recursive then
       (recursiveExpansionInstr net (processEntries ⟨∅, ∅⟩ jsondata)).2
     else [])

/-- A JSON value, as far as the script's output needs: strings, arrays
and objects. -/
inductive JsonValue
  | str (s : String)
  | arr (elems : List JsonValue)
  | obj (fields : List (String × JsonValue))

/-- What save_to_file writes into the output file: either one JSON
document or plain text. -/
inductive FileContent
  | jsonDoc (v : JsonValue)
  | textLines (content : String)

/-- save_to_file(subdomains, output_file, output_format): for 'json',
json.dump of {'subdomains': list(subdomains)}; for any other format
value (the argument parser only admits 'csv' besides 'json', or the
option is absent) one f-string write of subdomain plus a newline per
member of sorted(subdomains). Python's unspecified set order in
list(subdomains) is canonicalised as sorted; the claims only use the
list's membership. -/
def save_to_file (subdomains : Finset String) (output_format : Option String) :
    FileContent :=
  if output_format = some "json" then
    FileContent.jsonDoc
      (JsonValue.obj
        [("subdomains",
          JsonValue.arr ((subdomains.sort (· ≤ ·)).map JsonValue.str))])
  else
    FileContent.textLines
      (String.join ((subdomains.sort (· ≤ ·)).map (fun s => s ++ "\n")))

/-- The three choices the argument parser admits for the technique
option. -/
inductive Technique
  | crtsh
  | dns
  | bruteforce
deriving DecidableEq

/-- The parsed command-line arguments (argparse namespace), one field
per add_argument call of parse_args. -/
structure Args where
  domain : String
  recursive : Bool
  wildcard : Bool
  output : Option String
  verbose : Bool
  exclude_wildcards : Bool
  user_agent : String
  rate_limit : ℚ
  timeout : ℚ
  log : String
  extensions : Option String
  format : Option String
  interactive : Bool
  technique : Technique

/-- The call the entry point makes (lines 212-217): process_subdomains
receives domain, recursive, wildcard, exclude_wildcards and
extensions (passed as None when falsy, that is missing or empty);
verbose/user_agent/timeout/rate_limit configure transport and logging,
absorbed into net. No other argument — in particular not technique,
format, interactive or output — reaches the pipeline. -/
def mainPipeline (net : Net) (args : Args) : Finset String :=
  process_subdomains net args.domain args.recursive args.wildcard
    args.exclude_wildcards
    (match args.extensions with
     | some e => if e = "" then none else some e
     | none => none)

/-- The classification invariant: every member of the concrete set is
free of stars, every member of the wildcard set contains a star. -/
def goodState (st : SetsState) : Prop :=
  (∀ s ∈ st.subs, hasStar s = false) ∧ (∀ s ∈ st.wilds, hasStar s = true)

/-- A transport whose final response carries a status outside both the
2xx range and the 4xx/5xx range raise_for_status checks (a redirect
status on a response that ends the redirect chain), with a JSON body. -/
def redirectNet : Net := fun _ =>
  Except.ok { status := 302, body := [⟨some "a.example.com"⟩] }

/-- A transport on which every request fails with a connection
error. -/
def failNet : Net := fun _ =>
  Except.error NetError.connectionFailure

/-- A transport answering only the root query, with one record holding
two concrete hostnames under different top level domains. -/
def sampleNet : Net := fun q =>
  if q = "example.com" then
    Except.ok ⟨200, [⟨some "a.example.com\nb.example.org"⟩]⟩
  else Except.error NetError.connectionFailure

/-- A transport answering only the root query, with a record whose
name_value holds a whitespace-only line between two hostnames. -/
def wsNet : Net := fun q =>
  if q = "example.com" then
    Except.ok ⟨200, [⟨some "a.example.com\n   \nb.example.com"⟩]⟩
  else Except.error NetError.connectionFailure

/-- A transport with one wildcard in the root answer and a further
wildcard inside the recursive answer for it. -/
def recNet : Net := fun q =>
  if q = "example.com" then
    Except.ok ⟨200, [⟨some "a.example.com\n*.example.com"⟩]⟩
  else if q = "%25.example.com" then
    Except.ok ⟨200, [⟨some "b.example.com\n*.deep.example.com"⟩]⟩
  else Except.error NetError.connectionFailure

/-! Sanity checks that the embedded Python string primitives behave as
Python does on the spec's own examples. -/

example : pySplitlines "a.example.com\n*.example.com"
    = ["a.example.com", "*.example.com"] := by decide

example : pySplitlines "a\n\nb\n" = ["a", "", "b"] := by decide

example : pySplitlines "" = [] := by decide

example : pyStrip "  a.example.com\t" = "a.example.com" := by decide

example : hasStar "*.example.com" = true := by decide

example : hasStar "a.example.com" = false := by decide

example : encodeWildcard "*.example.com" = "%25.example.com" := by decide

example : pyEndsWith "b.example.org" ".org" = true := by decide

example : pyEndsWith "a.example.com" ".org" = false := by decide

/-! Helper lemmas: folds over SetsState grow both sets monotonically,
preserve the classification invariant, and record the contribution of
every list element. -/

/-- A projected set only grows along a foldl whose step is monotone on
that projection. -/
lemma foldl_proj_mono {α : Type} (f : SetsState → α → SetsState)
    (proj : SetsState → Finset String)
    (hmono : ∀ st x, proj st ⊆ proj (f st x)) (l : List α) (st : SetsState) :
    proj st ⊆ proj (l.foldl f st) := by
  induction l generalizing st with
  | nil => exact subset_rfl
  | cons y ys ih => exact (hmono st y).trans (ih (f st y))

/-- A predicate preserved by the step is preserved by the foldl. -/
lemma foldl_pres {α : Type} (f : SetsState → α → SetsState)
    (P : SetsState → Prop) (hf : ∀ st x, P st → P (f st x))
    (l : List α) (st : SetsState) (h : P st) : P (l.foldl f st) := by
  induction l generalizing st with
  | nil => exact h
  | cons y ys ih => exact ih (f st y) (hf st y h)

/-- If some list element always contributes the string s to the
projected set and the step is monotone, s is in the projected set after
the foldl. -/
lemma foldl_mem {α : Type} (f : SetsState → α → SetsState)
    (proj : SetsState → Finset String)
    (hmono : ∀ st x, proj st ⊆ proj (f st x)) (l : List α) (st : SetsState)
    (x : α) (hx : x ∈ l) (s : String) (hs : ∀ st', s ∈ proj (f st' x)) :
    s ∈ proj (l.foldl f st) := by
  induction l generalizing st with
  | nil => cases hx
  | cons y ys ih =>
    rcases List.mem_cons.mp hx with h | h
    · have hmem : s ∈ proj (f st y) := h ▸ hs st
      exact foldl_proj_mono f proj hmono ys (f st y) hmem
    · exact ih (f st y) h

/-- The second component of the instrumented fold is the initial log
followed by the encoding of every element of the list, in order. -/
lemma foldl_pair_log {α : Type} (f : SetsState → α → SetsState)
    (g : α → String) (l : List α) (st : SetsState) (log : List String) :
    (l.foldl (fun p w => (f p.1 w, p.2 ++ [g w])) (st, log)).2
      = log ++ l.map g := by
  induction l generalizing st log with
  | nil => simp
  | cons y ys ih => simp [List.foldl_cons, ih]

/-- The first component of the instrumented fold is the plain fold. -/
lemma foldl_pair_fst {α : Type} (f : SetsState → α → SetsState)
    (g : α → String) (l : List α) (st : SetsState) (log : List String) :
    (l.foldl (fun p w => (f p.1 w, p.2 ++ [g w])) (st, log)).1
      = l.foldl f st := by
  induction l generalizing st log with
  | nil => rfl
  | cons y ys ih => simp [List.foldl_cons, ih]

/-- Membership in the wildcard set after add_subdomain. -/
lemma mem_add_subdomain_wilds (st : SetsState) (s x : String) :
    x ∈ (add_subdomain st s).wilds ↔
      x ∈ st.wilds ∨ (x = s ∧ hasStar s = true) := by
  unfold add_subdomain
  by_cases h : hasStar s
  · simp only [if_pos h, Finset.mem_insert]
    constructor
    · rintro (rfl | hx)
      · exact Or.inr ⟨rfl, h⟩
      · exact Or.inl hx
    · rintro (hx | ⟨rfl, _⟩)
      · exact Or.inr hx
      · exact Or.inl rfl
  · simp only [if_neg h]
    constructor
    · exact Or.inl
    · rintro (hx | ⟨rfl, hstar⟩)
      · exact hx
      · exact absurd hstar h

/-- Membership in the concrete set after add_subdomain. -/
lemma mem_add_subdomain_subs (st : SetsState) (s x : String) :
    x ∈ (add_subdomain st s).subs ↔
      x ∈ st.subs ∨ (x = s ∧ hasStar s = false) := by
  unfold add_subdomain
  by_cases h : hasStar s
  · simp only [if_pos h]
    constructor
    · exact Or.inl
    · rintro (hx | ⟨rfl, hstar⟩)
      · exact hx
      · exact absurd h (by simp [hstar])
  · simp only [if_neg h]
    have hfalse : hasStar s = false := Bool.not_eq_true _ ▸ h
    simp only [Finset.mem_insert]
    constructor
    · rintro (rfl | hx)
      · exact Or.inr ⟨rfl, hfalse⟩
      · exact Or.inl hx
    · rintro (hx | ⟨rfl, _⟩)
      · exact Or.inr hx
      · exact Or.inl rfl

/-- add_subdomain grows the concrete set. -/
lemma add_subdomain_subs_mono (st : SetsState) (s : String) :
    st.subs ⊆ (add_subdomain st s).subs := by
  intro x hx
  exact (mem_add_subdomain_subs st s x).mpr (Or.inl hx)

/-- add_subdomain grows the wildcard set. -/
lemma add_subdomain_wilds_mono (st : SetsState) (s : String) :
    st.wilds ⊆ (add_subdomain st s).wilds := by
  intro x hx
  exact (mem_add_subdomain_wilds st s x).mpr (Or.inl hx)

/-- processEntry grows the concrete set. -/
lemma processEntry_subs_mono (st : SetsState) (e : Entry) :
    st.subs ⊆ (processEntry st e).subs :=
  foldl_proj_mono _ SetsState.subs
    (fun st line => add_subdomain_subs_mono st (pyStrip line)) _ st

/-- processEntry grows the wildcard set. -/
lemma processEntry_wilds_mono (st : SetsState) (e : Entry) :
    st.wilds ⊆ (processEntry st e).wilds :=
  foldl_proj_mono _ SetsState.wilds
    (fun st line => add_subdomain_wilds_mono st (pyStrip line)) _ st

/-- processEntries grows the concrete set. -/
lemma processEntries_subs_mono (st : SetsState) (es : List Entry) :
    st.subs ⊆ (processEntries st es).subs :=
  foldl_proj_mono _ SetsState.subs processEntry_subs_mono es st

/-- processEntries grows the wildcard set. -/
lemma processEntries_wilds_mono (st : SetsState) (es : List Entry) :
    st.wilds ⊆ (processEntries st es).wilds :=
  foldl_proj_mono _ SetsState.wilds processEntry_wilds_mono es st

/-- fetchAndProcess grows the concrete set. -/
lemma fetchAndProcess_subs_mono (net : Net) (st : SetsState) (q : String) :
    st.subs ⊆ (fetchAndProcess net st q).subs := by
  unfold fetchAndProcess
  by_cases h : fetch_subdomains net q = []
  · simp [h]
  · simpa [h] using processEntries_subs_mono st (fetch_subdomains net q)

/-- fetchAndProcess grows the wildcard set. -/
lemma fetchAndProcess_wilds_mono (net : Net) (st : SetsState) (q : String) :
    st.wilds ⊆ (fetchAndProcess net st q).wilds := by
  unfold fetchAndProcess
  by_cases h : fetch_subdomains net q = []
  · simp [h]
  · simpa [h] using processEntries_wilds_mono st (fetch_subdomains net q)

/-- recursiveExpansion grows the concrete set. -/
lemma recursiveExpansion_subs_mono (net : Net) (st : SetsState) :
    st.subs ⊆ (recursiveExpansion net st).subs :=
  foldl_proj_mono _ SetsState.subs
    (fun acc w => fetchAndProcess_subs_mono net acc (encodeWildcard w)) _ st

/-- recursiveExpansion grows the wildcard set. -/
lemma recursiveExpansion_wilds_mono (net : Net) (st : SetsState) :
    st.wilds ⊆ (recursiveExpansion net st).wilds :=
  foldl_proj_mono _ SetsState.wilds
    (fun acc w => fetchAndProcess_wilds_mono net acc (encodeWildcard w)) _ st

/-- add_subdomain preserves the classification invariant. -/
lemma goodState_add_subdomain (st : SetsState) (s : String)
    (h : goodState st) : goodState (add_subdomain st s) := by
  obtain ⟨hsubs, hwilds⟩ := h
  constructor
  · intro x hx
    rcases (mem_add_subdomain_subs st s x).mp hx with h' | ⟨rfl, h'⟩
    · exact hsubs x h'
    · exact h'
  · intro x hx
    rcases (mem_add_subdomain_wilds st s x).mp hx with h' | ⟨rfl, h'⟩
    · exact hwilds x h'
    · exact h'

/-- processEntry preserves the classification invariant. -/
lemma goodState_processEntry (st : SetsState) (e : Entry)
    (h : goodState st) : goodState (processEntry st e) :=
  foldl_pres _ goodState
    (fun st line => goodState_add_subdomain st (pyStrip line)) _ st h

/-- processEntries preserves the classification invariant. -/
lemma goodState_processEntries (st : SetsState) (es : List Entry)
    (h : goodState st) : goodState (processEntries st es) :=
  foldl_pres _ goodState goodState_processEntry es st h

/-- fetchAndProcess preserves the classification invariant. -/
lemma goodState_fetchAndProcess (net : Net) (st : SetsState) (q : String)
    (h : goodState st) : goodState (fetchAndProcess net st q) := by
  unfold fetchAndProcess
  by_cases hq : fetch_subdomains net q = []
  · simpa [hq]
  · simpa [hq] using goodState_processEntries st (fetch_subdomains net q) h

/-- recursiveExpansion preserves the classification invariant. -/
lemma goodState_recursiveExpansion (net : Net) (st : SetsState)
    (h : goodState st) : goodState (recursiveExpansion net st) :=
  foldl_pres _ goodState
    (fun acc w => goodState_fetchAndProcess net acc (encodeWildcard w)) _ st h

/-- The collection phase always satisfies the classification
invariant. -/
lemma goodState_collectState (net : Net) (domain : String)
    (recursive : Bool) : goodState (collectState net domain recursive) := by
  have h0 : goodState (⟨∅, ∅⟩ : SetsState) := by
    constructor <;> intro s hs <;> simp at hs
  have h1 := goodState_processEntries ⟨∅, ∅⟩ (fetch_subdomains net domain) h0
  unfold collectState
  cases recursive with
  | false => simpa using h1
  | true => simpa using goodState_recursiveExpansion net _ h1

/-- A line of an entry that strips to a star-free string lands in the
concrete set of processEntry. -/
lemma mem_processEntry_subs (st : SetsState) (e : Entry) (line : String)
    (hl : line ∈ pySplitlines (e.name_value.getD ""))
    (h : hasStar (pyStrip line) = false) :
    pyStrip line ∈ (processEntry st e).subs :=
  foldl_mem _ SetsState.subs
    (fun st l => add_subdomain_subs_mono st (pyStrip l)) _ st line hl _
    (fun st' => (mem_add_subdomain_subs st' (pyStrip line) _).mpr
      (Or.inr ⟨rfl, h⟩))

/-- A line of an entry that strips to a starred string lands in the
wildcard set of processEntry. -/
lemma mem_processEntry_wilds (st : SetsState) (e : Entry) (line : String)
    (hl : line ∈ pySplitlines (e.name_value.getD ""))
    (h : hasStar (pyStrip line) = true) :
    pyStrip line ∈ (processEntry st e).wilds :=
  foldl_mem _ SetsState.wilds
    (fun st l => add_subdomain_wilds_mono st (pyStrip l)) _ st line hl _
    (fun st' => (mem_add_subdomain_wilds st' (pyStrip line) _).mpr
      (Or.inr ⟨rfl, h⟩))

/-- Lifting of the previous lemma through the loop over entries, for
the concrete set. -/
lemma mem_processEntries_subs (st : SetsState) (es : List Entry) (e : Entry)
    (line : String) (he : e ∈ es)
    (hl : line ∈ pySplitlines (e.name_value.getD ""))
    (h : hasStar (pyStrip line) = false) :
    pyStrip line ∈ (processEntries st es).subs :=
  foldl_mem _ SetsState.subs processEntry_subs_mono es st e he _
    (fun st' => mem_processEntry_subs st' e line hl h)

/-- Lifting of the previous lemma through the loop over entries, for
the wildcard set. -/
lemma mem_processEntries_wilds (st : SetsState) (es : List Entry) (e : Entry)
    (line : String) (he : e ∈ es)
    (hl : line ∈ pySplitlines (e.name_value.getD ""))
    (h : hasStar (pyStrip line) = true) :
    pyStrip line ∈ (processEntries st es).wilds :=
  foldl_mem _ SetsState.wilds processEntry_wilds_mono es st e he _
    (fun st' => mem_processEntry_wilds st' e line hl h)

/-- Membership in the merged set, by cases on the two flags. -/
lemma mem_mergeWildcardPolicy (subs wilds : Finset String)
    (wildcard exclude_wildcards : Bool) (x : String) :
    x ∈ mergeWildcardPolicy subs wilds wildcard exclude_wildcards ↔
      ((x ∈ subs ∨ (wildcard = true ∧ x ∈ wilds))
        ∧ ¬(exclude_wildcards = true ∧ x ∈ wilds)) := by
  unfold mergeWildcardPolicy
  cases wildcard <;> cases exclude_wildcards <;>
    simp [Finset.mem_sdiff, Finset.mem_union]

/-- C5: classification is exactly the star test — add_subdomain puts a
hostname in the wildcard set when and only when it contains the
character `*`, in the concrete set otherwise, and touches nothing
else: membership in the two sets after the call is fully determined by
the previous sets, the string, and the star test, which itself is just
character membership of `*`. -/
theorem add_subdomain_classification_exact (st : SetsState) (s x : String) :
    (x ∈ (add_subdomain st s).wilds ↔
      x ∈ st.wilds ∨ (x = s ∧ hasStar s = true))
  ∧ (x ∈ (add_subdomain st s).subs ↔
      x ∈ st.subs ∨ (x = s ∧ hasStar s = false))
  ∧ (hasStar s = true ↔ '*' ∈ s.data) :=
  ⟨mem_add_subdomain_wilds st s x, mem_add_subdomain_subs st s x, by
    simp [hasStar]⟩

/-- C2: the merge step applied to a collected concrete set C (star
free) and wildcard set W (all starred): exclude_wildcards yields C for
either value of the wildcard flag, wildcard alone yields the union,
neither flag yields C. -/
theorem merge_step_policy (C W : Finset String)
    (hC : ∀ s ∈ C, hasStar s = false) (hW : ∀ s ∈ W, hasStar s = true) :
    (∀ wildcard : Bool, mergeWildcardPolicy C W wildcard true = C)
  ∧ mergeWildcardPolicy C W true false = C ∪ W
  ∧ mergeWildcardPolicy C W false false = C := by
  have hdisj : ∀ x, x ∈ C → x ∈ W → False := by
    intro x hx hw
    have h1 := hC x hx
    have h2 := hW x hw
    rw [h1] at h2
    exact Bool.false_ne_true h2
  refine ⟨fun wildcard => ?_, rfl, rfl⟩
  ext x
  rw [mem_mergeWildcardPolicy]
  constructor
  · rintro ⟨h1, h2⟩
    rcases h1 with h | ⟨_, hw⟩
    · exact h
    · exact absurd ⟨rfl, hw⟩ h2
  · intro hx
    exact ⟨Or.inl hx, fun h => hdisj x hx h.2⟩

/-- Witness for merge_step_policy at C containing one concrete name and
W one wildcard name. -/
theorem merge_step_policy_witness :
    ((∀ s ∈ ({"a.example.com"} : Finset String), hasStar s = false)
      ∧ (∀ s ∈ ({"*.example.com"} : Finset String), hasStar s = true))
  ∧ ((∀ wildcard : Bool,
        mergeWildcardPolicy {"a.example.com"} {"*.example.com"} wildcard true
          = {"a.example.com"})
      ∧ mergeWildcardPolicy {"a.example.com"} {"*.example.com"} true false
          = {"a.example.com"} ∪ {"*.example.com"}
      ∧ mergeWildcardPolicy {"a.example.com"} {"*.example.com"} false false
          = {"a.example.com"}) :=
  ⟨⟨by decide, by decide⟩, merge_step_policy _ _ (by decide) (by decide)⟩

/-- C10: an entry with no name_value field contributes nothing — the
field defaults to the empty string, whose line split is empty, so the
entry leaves the state untouched and processing of the surrounding
entries is exactly as if the entry were absent. -/
theorem missing_name_value_is_inert (st : SetsState) (l1 l2 : List Entry) :
    pySplitlines ((Entry.mk none).name_value.getD "") = []
  ∧ processEntry st ⟨none⟩ = st
  ∧ processEntries st (l1 ++ ⟨none⟩ :: l2) = processEntries st (l1 ++ l2) := by
  have hskip : ∀ st' : SetsState, processEntry st' ⟨none⟩ = st' := fun _ => rfl
  exact ⟨rfl, rfl, by
    simp [processEntries, List.foldl_append, List.foldl_cons, hskip]⟩

/-- C7: save_to_file writes, for the json format, one object with the
single field subdomains holding the members of the set (as a duplicate
free list), and for the csv format or an absent format one member per
line in lexicographically sorted order, each line terminated by a
newline; String order is list order on the characters, which is the
lexicographic order. -/
theorem save_to_file_two_formats (subdomains : Finset String) :
    (∃ l : List String, l.Nodup ∧ l.toFinset = subdomains ∧
      save_to_file subdomains (some "json")
        = FileContent.jsonDoc (JsonValue.obj
            [("subdomains", JsonValue.arr (l.map JsonValue.str))]))
  ∧ (∃ l : List String, l.Sorted (· ≤ ·) ∧ l.toFinset = subdomains ∧
      save_to_file subdomains (some "csv")
        = FileContent.textLines (String.join (l.map (fun s => s ++ "\n"))))
  ∧ save_to_file subdomains none = save_to_file subdomains (some "csv")
  ∧ (∀ a b : String, a < b ↔ List.Lex (· < ·) a.toList b.toList) := by
  refine ⟨⟨subdomains.sort (· ≤ ·), Finset.sort_nodup _ _,
      Finset.sort_toFinset _ _, ?_⟩,
    ⟨subdomains.sort (· ≤ ·), Finset.sort_sorted _ _,
      Finset.sort_toFinset _ _, ?_⟩, ?_, ?_⟩
  · rfl
  · rfl
  · rfl
  · intro a b
    rw [String.lt_iff_toList_lt]
    exact Iff.rfl

/-- C8: the technique flag never reaches the pipeline — two runs whose
arguments differ only in technique produce the same final set. -/
theorem technique_flag_has_no_effect (net : Net) (args : Args)
    (t : Technique) :
    mainPipeline net { args with technique := t } = mainPipeline net args :=
  rfl

/-- When the root fetch returns data, process_subdomains is the
extension filter applied to the merge of the collected sets. -/
lemma process_subdomains_eq_collect (net : Net) (domain : String)
    (recursive wildcard exclude_wildcards : Bool) (extensions : Option String)
    (h : fetch_subdomains net domain ≠ []) :
    process_subdomains net domain recursive wildcard exclude_wildcards
        extensions
      = extensionFilterStep extensions
          (mergeWildcardPolicy (collectState net domain recursive).subs
            (collectState net domain recursive).wilds wildcard
            exclude_wildcards) := by
  unfold process_subdomains collectState
  simp [h]

/-- The character `*` never occurs in an encoded wildcard query. -/
lemma star_not_mem_encodeWildcard (s : String) :
    '*' ∉ (encodeWildcard s).data := by
  unfold encodeWildcard
  intro hmem
  rcases List.mem_flatten.mp hmem with ⟨l, hl, hstar⟩
  rcases List.mem_map.mp hl with ⟨c, _, rfl⟩
  by_cases hc : c = '*'
  · rw [if_pos hc] at hstar
    exact absurd hstar (by decide)
  · rw [if_neg hc] at hstar
    exact hc (List.mem_singleton.mp hstar).symm

/-- Encoding a wildcard replaces every star, so the query is star
free. -/
lemma hasStar_encodeWildcard (s : String) :
    hasStar (encodeWildcard s) = false := by
  unfold hasStar
  simpa using star_not_mem_encodeWildcard s

/-- The log of the instrumented recursive loop accumulates exactly the
encodings of the iterated list, in order. -/
lemma recLoop_log (net : Net) (l : List String) (st : SetsState)
    (log : List String) :
    (l.foldl
      (fun p w =>
        (fetchAndProcess net p.1 (encodeWildcard w), p.2 ++ [encodeWildcard w]))
      (st, log)).2 = log ++ l.map encodeWildcard := by
  induction l generalizing st log with
  | nil => simp
  | cons y ys ih => simp [List.foldl_cons, ih]

/-- The state of the instrumented recursive loop is that of the plain
loop. -/
lemma recLoop_state (net : Net) (l : List String) (st : SetsState)
    (log : List String) :
    (l.foldl
      (fun p w =>
        (fetchAndProcess net p.1 (encodeWildcard w), p.2 ++ [encodeWildcard w]))
      (st, log)).1
      = l.foldl (fun acc w => fetchAndProcess net acc (encodeWildcard w)) st := by
  induction l generalizing st log with
  | nil => rfl
  | cons y ys ih => simp [List.foldl_cons, ih]

/-- The instrumented recursive loop logs one query per snapshot
wildcard, in iteration order. -/
lemma recursiveExpansionInstr_log (net : Net) (st : SetsState) :
    (recursiveExpansionInstr net st).2
      = (st.wilds.sort (· ≤ ·)).map encodeWildcard := by
  unfold recursiveExpansionInstr
  rw [recLoop_log]
  simp

/-- The instrumented recursive loop computes the same sets as the
plain one. -/
lemma recursiveExpansionInstr_state (net : Net) (st : SetsState) :
    (recursiveExpansionInstr net st).1 = recursiveExpansion net st := by
  unfold recursiveExpansionInstr recursiveExpansion
  rw [recLoop_state]

/-- C1 as stated is false on the code: the status forcelist built by
requests_retry_session with the script's defaults is (500, 502, 504),
so the status 503 — a member of the 502/503/504 class — is not
retried. -/
theorem retry_claim_fails_at_503 :
    ¬ (∀ s ∈ [502, 503, 504], default_retry_session.retriesOnStatus s = true) := by
  decide

/-- C1 amended: the session retries at most 3 times (total, read and
connect), the set of retried statuses is exactly 500, 502 and 504 — in
particular 503 is not retried — and the backoff schedule is
exponential, doubling from one consecutive error to the next while
below the 120 second cap. -/
theorem retry_policy_as_coded :
    default_retry_session.total = 3
  ∧ default_retry_session.read = 3
  ∧ default_retry_session.connect = 3
  ∧ (∀ s : Nat, default_retry_session.retriesOnStatus s = true ↔
      (s = 500 ∨ s = 502 ∨ s = 504))
  ∧ default_retry_session.retriesOnStatus 503 = false
  ∧ (∀ n : Nat, 2 ≤ n → n ≤ 8 →
      default_retry_session.getBackoffTime (n + 1)
        = 2 * default_retry_session.getBackoffTime n) := by
  refine ⟨rfl, rfl, rfl, ?_, by decide, ?_⟩
  · intro s
    simp [Retry.retriesOnStatus, default_retry_session, requests_retry_session]
  · intro n h2 h8
    interval_cases n <;>
      norm_num [Retry.getBackoffTime, default_retry_session,
        requests_retry_session]

/-- Witness for retry_policy_as_coded: the backoff after the third
consecutive error is twice the backoff after the second. -/
theorem retry_policy_as_coded_witness :
    (2 ≤ 3 ∧ 3 ≤ 8)
  ∧ default_retry_session.getBackoffTime 4
      = 2 * default_retry_session.getBackoffTime 3 :=
  ⟨by decide, retry_policy_as_coded.2.2.2.2.2 3 (by decide) (by decide)⟩

/-- C6 as stated is false on the code: raise_for_status only raises for
statuses in the 4xx/5xx range, so a non-2xx status outside it (a final
302 with a JSON body) yields a non-empty fetch result and a non-empty
final set. -/
theorem non_2xx_fetch_not_always_empty :
    redirectNet "example.com" = Except.ok ⟨302, [⟨some "a.example.com"⟩]⟩
  ∧ fetch_subdomains redirectNet "example.com" = [⟨some "a.example.com"⟩]
  ∧ process_subdomains redirectNet "example.com" false false false none
      = {"a.example.com"} :=
  ⟨rfl, rfl, by decide⟩

/-- C6 amended: if the root fetch fails with a network error
(connection failure, timeout, retries exhausted — the caught
RequestException) or with a status in the 4xx/5xx range
raise_for_status checks, the Fetcher returns the empty list and
process_subdomains returns the empty set; no exception reaches the
caller (failure is the Except.error value, consumed inside
fetch_subdomains). -/
theorem root_fetch_failure_yields_empty (net : Net) (domain : String)
    (recursive wildcard exclude_wildcards : Bool) (extensions : Option String)
    (h : (∃ err, net domain = Except.error err)
       ∨ (∃ resp, net domain = Except.ok resp
            ∧ 400 ≤ resp.status ∧ resp.status < 600)) :
    fetch_subdomains net domain = []
  ∧ process_subdomains net domain recursive wildcard exclude_wildcards
      extensions = ∅ := by
  have hf : fetch_subdomains net domain = [] := by
    rcases h with ⟨err, herr⟩ | ⟨resp, hok, h4, h6⟩
    · simp [fetch_subdomains, herr]
    · simp [fetch_subdomains, hok, h4, h6]
  refine ⟨hf, ?_⟩
  unfold process_subdomains
  simp [hf]

/-- Witness for root_fetch_failure_yields_empty at a transport whose
every request fails with a connection error. -/
theorem root_fetch_failure_yields_empty_witness :
    failNet "example.com" = Except.error NetError.connectionFailure
  ∧ process_subdomains failNet "example.com" true true false none = ∅ :=
  ⟨rfl,
    (root_fetch_failure_yields_empty failNet "example.com" true true false none
      (Or.inl ⟨NetError.connectionFailure, rfl⟩)).2⟩

/-- C4: with a non-empty extension list the final set is the unfiltered
final set restricted to hostnames ending in a dot followed by one of
the trimmed listed extensions; every surviving member has such a
suffix, every collected member with no such suffix is dropped, and
with no extension list the filter step is the identity. The last
conjunct says the suffix test is genuine string-suffix membership. -/
theorem extension_filter_exact (net : Net) (domain : String)
    (recursive wildcard exclude_wildcards : Bool) (e : String) (he : e ≠ "") :
    process_subdomains net domain recursive wildcard exclude_wildcards (some e)
      = Finset.filter (fun s => matchesExtension e s = true)
          (process_subdomains net domain recursive wildcard exclude_wildcards
            none)
  ∧ (∀ s ∈ process_subdomains net domain recursive wildcard exclude_wildcards
        (some e),
      ∃ ext ∈ e.splitOn ",", pyEndsWith s ("." ++ pyStrip ext) = true)
  ∧ (∀ s ∈ process_subdomains net domain recursive wildcard exclude_wildcards
        none,
      (∀ ext ∈ e.splitOn ",", pyEndsWith s ("." ++ pyStrip ext) = false) →
        s ∉ process_subdomains net domain recursive wildcard exclude_wildcards
          (some e))
  ∧ (∀ S : Finset String, extensionFilterStep none S = S)
  ∧ (∀ s t : String, pyEndsWith s t = true ↔ t.data <:+ s.data) := by
  have key : process_subdomains net domain recursive wildcard exclude_wildcards
      (some e)
      = Finset.filter (fun s => matchesExtension e s = true)
          (process_subdomains net domain recursive wildcard exclude_wildcards
            none) := by
    unfold process_subdomains
    by_cases hj : fetch_subdomains net domain = []
    · simp [hj]
    · simp [hj, extensionFilterStep, he]
  refine ⟨key, ?_, ?_, fun S => rfl, fun s t => by
    simp [pyEndsWith, List.isSuffixOf_iff_suffix]⟩
  · intro s hs
    rw [key, Finset.mem_filter] at hs
    have hmatch := hs.2
    unfold matchesExtension at hmatch
    rcases List.any_eq_true.mp hmatch with ⟨ext, hext, hends⟩
    exact ⟨ext, hext, hends⟩
  · intro s _ hall hmem
    rw [key, Finset.mem_filter] at hmem
    have hmatch := hmem.2
    unfold matchesExtension at hmatch
    rcases List.any_eq_true.mp hmatch with ⟨ext, hext, hends⟩
    rw [hall ext hext] at hends
    exact Bool.false_ne_true hends

/-- Witness for extension_filter_exact at a run that collects hostnames
under two top level domains and filters with the list org. -/
theorem extension_filter_exact_witness :
    ("org" : String) ≠ ""
  ∧ process_subdomains sampleNet "example.com" false false false (some "org")
      = Finset.filter (fun s => matchesExtension "org" s = true)
          (process_subdomains sampleNet "example.com" false false false none) :=
  ⟨by decide,
    (extension_filter_exact sampleNet "example.com" false false false "org"
      (by decide)).1⟩

/-- C9: a name_value line consisting only of whitespace strips to the
empty string, which is classified as concrete (it has no star), joins
the concrete set of the collection phase, and — with no extension
filter — survives the merge into the final set for every combination
of the recursive, wildcard and exclude flags. -/
theorem whitespace_only_line_survives (net : Net) (domain : String)
    (recursive wildcard exclude_wildcards : Bool) (e : Entry) (line : String)
    (he : e ∈ fetch_subdomains net domain)
    (hl : line ∈ pySplitlines (e.name_value.getD ""))
    (hstrip : pyStrip line = "") :
    hasStar "" = false
  ∧ "" ∈ (collectState net domain recursive).subs
  ∧ "" ∈ process_subdomains net domain recursive wildcard exclude_wildcards
      none := by
  have hroot : fetch_subdomains net domain ≠ [] := List.ne_nil_of_mem he
  have hstar : hasStar (pyStrip line) = false := by rw [hstrip]; rfl
  have h0 : pyStrip line
      ∈ (processEntries ⟨∅, ∅⟩ (fetch_subdomains net domain)).subs :=
    mem_processEntries_subs _ _ e line he hl hstar
  have hsub : "" ∈ (collectState net domain recursive).subs := by
    rw [← hstrip]
    unfold collectState
    cases recursive with
    | false => simpa using h0
    | true => simpa using recursiveExpansion_subs_mono net _ h0
  have hnotwild : "" ∉ (collectState net domain recursive).wilds := by
    intro hmem
    have hbad := (goodState_collectState net domain recursive).2 "" hmem
    exact absurd hbad (by decide)
  refine ⟨rfl, hsub, ?_⟩
  rw [process_subdomains_eq_collect net domain recursive wildcard
    exclude_wildcards none hroot]
  simp only [extensionFilterStep]
  rw [mem_mergeWildcardPolicy]
  exact ⟨Or.inl hsub, fun h => hnotwild h.2⟩

/-- Witness for whitespace_only_line_survives: a record whose
name_value holds a line of three spaces puts the empty string into the
final set. -/
theorem whitespace_only_line_survives_witness :
    (⟨some "a.example.com\n   \nb.example.com"⟩ : Entry)
      ∈ fetch_subdomains wsNet "example.com"
  ∧ "" ∈ process_subdomains wsNet "example.com" false false false none :=
  ⟨by decide,
    (whitespace_only_line_survives wsNet "example.com" false false false
      ⟨some "a.example.com\n   \nb.example.com"⟩ "   "
      (by decide) (by decide) (by decide)).2.2⟩

/-- C3: with recursion on and a non-empty root answer, the queries
issued are exactly the root domain followed by one query per wildcard
in the snapshot taken after the root fetch, each formed by replacing
every star (so the query is star free); the instrumented run computes
the same sets as the pipeline's collection phase; every snapshot
wildcard stays in the final wildcard set; and every starred name found
in a recursive answer is added to the wildcard set — while, by the
query characterisation, only snapshot wildcards are ever expanded, so
recursion depth is exactly one level. -/
theorem recursion_exactly_one_level (net : Net) (domain : String)
    (hroot : fetch_subdomains net domain ≠ []) :
    queriesIssued net domain true
      = domain :: ((rootWildcards net domain).sort (· ≤ ·)).map encodeWildcard
  ∧ (∀ q ∈ (queriesIssued net domain true).tail,
      ∃ w ∈ rootWildcards net domain, q = encodeWildcard w)
  ∧ (∀ w : String, hasStar (encodeWildcard w) = false)
  ∧ (recursiveExpansionInstr net
      (processEntries ⟨∅, ∅⟩ (fetch_subdomains net domain))).1
      = collectState net domain true
  ∧ rootWildcards net domain ⊆ (collectState net domain true).wilds
  ∧ (∀ w ∈ rootWildcards net domain,
      ∀ e ∈ fetch_subdomains net (encodeWildcard w),
      ∀ line ∈ pySplitlines (e.name_value.getD ""),
        hasStar (pyStrip line) = true →
        pyStrip line ∈ (collectState net domain true).wilds) := by
  have hq : queriesIssued net domain true
      = domain :: (recursiveExpansionInstr net
          (processEntries ⟨∅, ∅⟩ (fetch_subdomains net domain))).2 := by
    unfold queriesIssued
    simp [hroot]
  have hcollect : collectState net domain true
      = recursiveExpansion net
          (processEntries ⟨∅, ∅⟩ (fetch_subdomains net domain)) := by
    unfold collectState
    simp
  have hlog : queriesIssued net domain true
      = domain
        :: ((rootWildcards net domain).sort (· ≤ ·)).map encodeWildcard := by
    rw [hq, recursiveExpansionInstr_log]
    rfl
  refine ⟨hlog, ?_, hasStar_encodeWildcard, ?_, ?_, ?_⟩
  · intro q hqmem
    rw [hlog] at hqmem
    simp only [List.tail_cons] at hqmem
    rcases List.mem_map.mp hqmem with ⟨w, hw, rfl⟩
    exact ⟨w, (Finset.mem_sort _).mp hw, rfl⟩
  · rw [recursiveExpansionInstr_state, hcollect]
  · rw [hcollect]
    exact recursiveExpansion_wilds_mono net _
  · intro w hw e he line hl hstarline
    rw [hcollect]
    unfold recursiveExpansion
    have hwsort : w ∈ ((processEntries ⟨∅, ∅⟩
        (fetch_subdomains net domain)).wilds.sort (· ≤ ·)) :=
      (Finset.mem_sort _).mpr hw
    refine foldl_mem _ SetsState.wilds
      (fun acc w' => fetchAndProcess_wilds_mono net acc (encodeWildcard w'))
      _ _ w hwsort _ (fun st' => ?_)
    unfold fetchAndProcess
    have hne : fetch_subdomains net (encodeWildcard w) ≠ [] :=
      List.ne_nil_of_mem he
    simp only [hne, if_neg, ite_false]
    exact mem_processEntries_wilds st' _ e line he hl hstarline

/-- Witness for recursion_exactly_one_level at a transport whose root
answer holds one wildcard and whose recursive answer holds a further
wildcard. -/
theorem recursion_exactly_one_level_witness :
    fetch_subdomains recNet "example.com" ≠ []
  ∧ queriesIssued recNet "example.com" true
      = "example.com"
        :: ((rootWildcards recNet "example.com").sort (· ≤ ·)).map
          encodeWildcard :=
  ⟨by decide, (recursion_exactly_one_level recNet "example.com" (by decide)).1⟩
